import Mathlib

/-!
Verification development for the genetic-algorithm trainer in `trainer.py`
(naughts-and-crosses neural-net population training).

The development has two layers.

Layer A is a pure functional embedding of `train` (trainer.py, lines 66-116):
the odd-population check, the per-generation loop (progress print subscript,
`run_generation`, sort descending, truncation to `int(len(players) *
fraction_kept)`, and the reproduction `while` loop), and the `finally` block
whose `return players` swallows any exception raised inside the `try` body.
The external collaborators that live in `player.py` / `board.py` (agents with
an elo rating, the match engine) are modelled from the spec where noted: the
population layer needs of an agent only its comparable rating, a deep copy, a
mutation operation, and a zero-argument constructor.  The effect of
`run_generation` on ratings (shuffling plus concurrent elo updates) is kept
abstract as a `play` parameter, since the match engine and the rating formula
are external to the core.

Layer B is a small-step operational model of the concurrent core: the shared
`Queue`, the `queue_lock`-guarded pair-take in `trainer_thread` (lines 14-37),
the driver loop of `run_generation` (lines 40-62) with its
`while player_queue.qsize() > 1: pass` drain poll, and the shutdown sequence
`quit_event.set(); join` from the `finally` block of `train`.  A scheduler
step is any atomic action of one thread; the driver's queue-size polls and
the lock-protected worker actions interleave arbitrarily.
-/

/-! ## Layer A: agents and the pure population pipeline -/

/-- Ghost provenance marker: was the agent produced by the clone branch of the
reproduction loop, or by zero-argument fresh construction (`NNPlayer()`)?
It records the construction site only and has no behavioural content. -/
inductive AgentKind
  | fresh
  | cloned
  deriving DecidableEq

/-- Modelled from the spec: `player.py` is not part of the analysed source.
Per the spec's Agent boundary (section 6), an agent exposes a total-orderable
skill rating; the population pipeline in `trainer.py` uses nothing else of it.
The rating is modelled as an integer; `kind` is the ghost provenance marker. -/
structure Agent where
  rating : Int
  kind : AgentKind
  deriving DecidableEq

/-- Modelled from the spec: the zero-argument constructor `NNPlayer()`.
Fresh agents start at the initial rating; the spec does not fix its value,
`0` is a representative choice. -/
def NNPlayer.new : Agent := ⟨0, .fresh⟩

/-- Modelled from the spec: the deep-copy operation of the Agent boundary.
The copy has the same rating; its ghost marker records that it was produced
by cloning. -/
def Agent.copy (a : Agent) : Agent := ⟨a.rating, .cloned⟩

/-- Modelled from the spec: the mutation operation of the Agent boundary.
Mutation perturbs the agent's internal policy; per the spec's data model an
agent's rating is mutated only by post-match rating updates, so on the
modelled fields mutation is the identity. -/
def Agent.mutate (a : Agent) (rate : ℚ) : Agent := a

/-- Descending order on ratings: `a` may come before `b` when
`b.rating ≤ a.rating`.  This is the comparison `players.sort(reverse=True)`
sorts by (rating comparison per the spec's Agent boundary). -/
def byRatingDesc (a b : Agent) : Prop := b.rating ≤ a.rating

instance : DecidableRel byRatingDesc := fun a b => Int.decLe b.rating a.rating

instance : IsTotal Agent byRatingDesc := ⟨fun a b => le_total b.rating a.rating⟩

instance : IsTrans Agent byRatingDesc := ⟨fun _ _ _ h1 h2 => le_trans h2 h1⟩

/-- The sort `players.sort(reverse=True)` in `train` (trainer.py line 101):
sort descending by rating. -/
def sortDesc (ps : List Agent) : List Agent := List.insertionSort byRatingDesc ps

/-- The slice bound `int(len(players) * fraction_kept)` (trainer.py line 102),
computed on the numerator/denominator of the fraction so that it evaluates by
kernel reduction.  `keepCount_eq_floor` below proves it equals
`⌊len · fractionKept⌋` (for the spec's range `0 ≤ fractionKept` Python's
`int()` truncation agrees with the floor). -/
def keepCount (len : Nat) (f : ℚ) : Nat :=
  (((len : Int) * f.num) / (f.den : Int)).toNat

/-- The SELECT step, trainer.py lines 101-102:
`players.sort(reverse=True); players = players[:int(len(players) * fraction_kept)]`. -/
def select (f : ℚ) (ps : List Agent) : List Agent :=
  (sortDesc ps).take (keepCount ps.length f)

/-- Exceptions that can be raised inside the `try` body of `train`:
`players[0]` on an empty population in the per-generation progress print
(trainer.py line 99), and `random.choice(players)` on an empty survivor list
in the clone branch of the reproduction loop (line 106). -/
inductive PyError
  | indexErrorPrint
  | indexErrorChoice
  deriving DecidableEq

/-- The REPRODUCE `while` loop of `train` (trainer.py lines 103-111).

```
i = 0
while len(players) < population_size:
    if i % 2 == 0:
        new_player = choice(players).copy()
        new_player.mutate(mutation_rate)
    else:
        new_player = NNPlayer()
    players.append(new_player)
```

Faithful detail: the loop never increments `i`, so the test `i % 2 == 0` is
evaluated on the unchanged initial value.  Each iteration appends exactly one
agent, so the loop runs exactly `population_size - len(players)` times; the
`fuel` argument carries that count and is `0` exactly when the guard
`len(players) < population_size` is false.  `choiceOracle k` resolves the
`k`-th call of `random.choice`: the chosen index is `choiceOracle k`
modulo the current length, and on an empty list the call raises
`IndexError` (modelled as `PyError.indexErrorChoice`); the raised-at
population value is carried in the error so the `finally` block can return
it.  -/
def reproduceGo (mutationRate : ℚ) (choiceOracle : Nat → Nat) (i : Nat) :
    Nat → Nat → List Agent → Except (PyError × List Agent) (List Agent)
  | _, 0, ps => .ok ps
  | k, fuel + 1, ps =>
    if i % 2 = 0 then
      match ps.get? (choiceOracle k % ps.length) with
      | none => .error (.indexErrorChoice, ps)
      | some p => reproduceGo mutationRate choiceOracle i (k + 1) fuel
          (ps ++ [(p.copy).mutate mutationRate])
    else
      reproduceGo mutationRate choiceOracle i (k + 1) fuel (ps ++ [NNPlayer.new])

/-- The REPRODUCE step: run the loop with its exact iteration count
`population_size - len(players)` and the initial counter `i = 0`. -/
def reproduce (populationSize : Nat) (mutationRate : ℚ) (choiceOracle : Nat → Nat)
    (ps : List Agent) : Except (PyError × List Agent) (List Agent) :=
  reproduceGo mutationRate choiceOracle 0 0 (populationSize - ps.length) ps

/-- One iteration of the generation loop of `train` (trainer.py lines 98-111):
the progress print subscripts `players[0]` (IndexError on an empty
population), then `run_generation` plays the sub-generation matches (kept
abstract as `play`, which shuffles and applies elo updates to the same
population), then SELECT, then REPRODUCE. -/
def generationStep (populationSize : Nat) (fractionKept mutationRate : ℚ)
    (choiceOracle : Nat → Nat) (play : List Agent → List Agent) (ps : List Agent) :
    Except (PyError × List Agent) (List Agent) :=
  match ps.head? with
  | none => .error (.indexErrorPrint, ps)
  | some _ => reproduce populationSize mutationRate choiceOracle (select fractionKept (play ps))

/-- The generation loop `for generation in range(generations)` of `train`,
starting at generation index `g` with `gens` generations remaining.
An exception raised in any iteration aborts the loop and carries the
population value current at the raise point. -/
def runGenerations (populationSize : Nat) (fractionKept mutationRate : ℚ)
    (choiceOracle : Nat → Nat → Nat) (play : Nat → List Agent → List Agent) :
    Nat → Nat → List Agent → Except (PyError × List Agent) (List Agent)
  | _, 0, ps => .ok ps
  | g, gens + 1, ps =>
    match generationStep populationSize fractionKept mutationRate (choiceOracle g) (play g) ps with
    | .error e => .error e
    | .ok ps' => runGenerations populationSize fractionKept mutationRate choiceOracle play
        (g + 1) gens ps'

/-- The configuration error raised by `train` for an odd population size
(trainer.py lines 9-11 and 83-84).  It is the only exception `train` can
propagate to its caller: it is raised before the `try` block, while every
exception raised inside the `try` body is discarded by the `return players`
statement in the `finally` block (lines 112-116). -/
inductive TrainError
  | oddPopulationError
  deriving DecidableEq

/-- The initial population `[NNPlayer() for _ in range(population_size)]`
(trainer.py line 87). -/
def initialPopulation (populationSize : Nat) : List Agent :=
  List.replicate populationSize NNPlayer.new

/-- The driver `train` (trainer.py lines 66-116), population pipeline view.

Faithful details: the odd-size check raises `OddPopulationError` before the
`try` block, so it is the only error the caller can see; the generation loop
runs inside `try`; the `finally` block executes `return players`, which both
swallows any exception raised in the `try` body and returns the population
value current at the raise point.  `subGenerations` and the worker-thread
count do not influence this layer (the matches they drive are abstracted into
`play`); they are kept for interface fidelity. -/
def train (populationSize : Nat) (fractionKept : ℚ) (generations subGenerations : Nat)
    (mutationRate : ℚ) (choiceOracle : Nat → Nat → Nat)
    (play : Nat → List Agent → List Agent) : Except TrainError (List Agent) :=
  if populationSize % 2 ≠ 0 then .error .oddPopulationError
  else
    .ok (match runGenerations populationSize fractionKept mutationRate choiceOracle play
            0 generations (initialPopulation populationSize) with
      | .ok ps => ps
      | .error (_, ps) => ps)

/-! ## Layer B: operational model of the concurrent core

The transition system models one call of `run_generation` (trainer.py lines
40-62) driving `sub_generations` rounds over a fixed pool of worker threads
running `trainer_thread` (lines 14-37), followed by the shutdown sequence of
the `finally` block of `train` (lines 112-115): `quit_event.set()` then
`thread.join()` for every worker.  Agents are identified by the numbers
`0, ..., P-1`.  Each transition is one atomic action of one thread; atomicity
granularity follows the synchronisation in the source:

* `queue.put`, `queue.get` and `queue.qsize()` are individually atomic (the
  `queue.Queue` internal mutex), so the driver's size poll can interleave
  between the two `get` calls of a worker;
* the region guarded by `queue_lock` excludes other *workers*, so between a
  worker's two `get` calls no other worker can touch the queue, but the
  driver's `put`/`qsize` (which do not take `queue_lock`) can;
* the recheck `if queue.qsize() < 2` plus the first `get` is one step
  (`takeFirst`): a concurrent `put` only appends, so it commutes with the
  check and cannot invalidate it;
* playing one match and applying `NNPlayer.update_elo` to both players is
  one worker step (`finish`): it is straight-line code with no quit check
  inside, and the agents involved are in no other thread's hands;
* the match engine (external `board.play`) may also raise, killing the
  worker thread (`crash`); nothing delivers that exception to the driver.
-/

/-- Run configuration: population size, worker-thread count, sub-generation
count, and for each sub-generation the order in which `shuffle` made the
driver enqueue the agents (`shuffledId g i` is the agent enqueued `i`-th in
sub-generation `g`; for a faithful run it is a permutation of `0, ..., P-1`
for each `g`). -/
structure Cfg where
  P : Nat
  N : Nat
  subGens : Nat
  shuffledId : Nat → Nat → Nat

/-- State of one worker thread running `trainer_thread`. -/
inductive WStat
  | idle
  | tookOne (a : Nat)
  | playing (a : Nat) (b : Nat)
  | done
  | crashed
  deriving DecidableEq

/-- Control state of the driver thread: enqueueing agent `i` of
sub-generation `g`, busy-poll draining sub-generation `g`, about to set the
quit event, joining the workers, or returned to the caller. -/
inductive DStat
  | enq (g : Nat) (i : Nat)
  | drain (g : Nat)
  | quitting
  | joining
  | returned
  deriving DecidableEq

/-- Global state: the `player_queue` contents in FIFO order, the holder of
`queue_lock`, the worker states, the driver control state, the
`quit_event` flag, the per-agent count of applied elo updates, and the
number of completed matches. -/
structure St where
  queue : List Nat
  lock : Option Nat
  w : Nat → WStat
  d : DStat
  quit : Bool
  upd : Nat → Nat
  played : Nat

/-- Initial state: empty queue, lock free, all workers at their loop head,
driver about to enqueue the first agent of sub-generation 0, quit clear, no
updates applied, no matches completed. -/
def St.start : St := ⟨[], none, fun _ => .idle, .enq 0 0, false, fun _ => 0, 0⟩

/-- Apply one elo update to agent `x` (one half of `NNPlayer.update_elo`). -/
def bump (x : Nat) (u : Nat → Nat) : Nat → Nat := Function.update u x (u x + 1)

/-- One atomic action of one thread of the concurrent core. -/
inductive Step (c : Cfg) : St → St → Prop
  /-- Driver, ENQUEUE (trainer.py line 57): `player_queue.put(player)` for
  the `i`-th shuffled agent of sub-generation `g`. -/
  | put {q lk ws qt u pl} {g i : Nat} (hi : i < c.P) :
      Step c ⟨q, lk, ws, .enq g i, qt, u, pl⟩
             ⟨q ++ [c.shuffledId g i], lk, ws, .enq g (i + 1), qt, u, pl⟩
  /-- Driver: all `P` agents of sub-generation `g` are enqueued; the driver
  reaches the drain poll loop (trainer.py line 59). -/
  | enqDone {q lk ws qt u pl} {g : Nat} :
      Step c ⟨q, lk, ws, .enq g c.P, qt, u, pl⟩
             ⟨q, lk, ws, .drain g, qt, u, pl⟩
  /-- Driver, AWAIT_DRAIN (trainer.py line 59): `while player_queue.qsize() > 1:
  pass` — one poll reads a queue size of at most 1, so the loop exits and the
  next sub-generation begins.  Note the condition is on the *queue size
  right now*, not on match completion. -/
  | drainNext {q lk ws qt u pl} {g : Nat} (hq : q.length ≤ 1) (hg : g + 1 < c.subGens) :
      Step c ⟨q, lk, ws, .drain g, qt, u, pl⟩
             ⟨q, lk, ws, .enq (g + 1) 0, qt, u, pl⟩
  /-- Driver: the drain poll of the last sub-generation exits;
  `run_generation` returns and the driver heads for the `finally` block. -/
  | drainLast {q lk ws qt u pl} {g : Nat} (hq : q.length ≤ 1) (hg : ¬ g + 1 < c.subGens) :
      Step c ⟨q, lk, ws, .drain g, qt, u, pl⟩
             ⟨q, lk, ws, .quitting, qt, u, pl⟩
  /-- Driver, shutdown (trainer.py line 113): `quit_event.set()`. -/
  | setQuit {q lk ws qt u pl} :
      Step c ⟨q, lk, ws, .quitting, qt, u, pl⟩
             ⟨q, lk, ws, .joining, true, u, pl⟩
  /-- Driver, shutdown (trainer.py lines 114-115): every `thread.join()`
  returns, which requires every worker thread to have terminated — either
  normally or by an exception that killed it.  Then `return players` runs. -/
  | joinAll {q lk ws u pl} (h : ∀ k < c.N, ws k = .done ∨ ws k = .crashed) :
      Step c ⟨q, lk, ws, .joining, true, u, pl⟩
             ⟨q, lk, ws, .returned, true, u, pl⟩
  /-- Worker `k` (trainer.py lines 28-32): inside `with queue_lock`, the
  recheck `queue.qsize() < 2` fails (at least two agents present), and the
  first `queue.get()` returns the queue head. -/
  | takeFirst {a b : Nat} {t : List Nat} {ws dd qt u pl} {k : Nat}
      (hk : k < c.N) (hw : ws k = .idle) :
      Step c ⟨a :: b :: t, none, ws, dd, qt, u, pl⟩
             ⟨b :: t, some k, Function.update ws k (.tookOne a), dd, qt, u, pl⟩
  /-- Worker `k` (trainer.py line 32): the second `queue.get()` under
  `queue_lock` returns the new queue head; the lock is released and the
  match `Board(player_one, player_two).play()` begins. -/
  | takeSecond {b : Nat} {t : List Nat} {ws dd qt u pl} {k a : Nat}
      (hw : ws k = .tookOne a) :
      Step c ⟨b :: t, some k, ws, dd, qt, u, pl⟩
             ⟨t, none, Function.update ws k (.playing a b), dd, qt, u, pl⟩
  /-- Worker `k` (trainer.py lines 33-34): the match ends and
  `NNPlayer.update_elo(*board.play())` applies one rating update to each of
  the two players; the worker returns to its loop head. -/
  | finish {q lk ws dd qt u pl} {k a b : Nat} (hw : ws k = .playing a b) :
      Step c ⟨q, lk, ws, dd, qt, u, pl⟩
             ⟨q, lk, Function.update ws k .idle, dd, qt, bump b (bump a u), pl + 1⟩
  /-- Worker `k`: the match engine raises while playing the match (or the elo
  update raises); the exception propagates out of `trainer_thread` and the
  daemon thread dies.  No rating update is applied and no error reaches the
  driver. -/
  | crash {q lk ws dd qt u pl} {k a b : Nat} (hw : ws k = .playing a b) :
      Step c ⟨q, lk, ws, dd, qt, u, pl⟩
             ⟨q, lk, Function.update ws k .crashed, dd, qt, u, pl⟩
  /-- Worker `k` (trainer.py lines 27 and 36): at its loop head (between
  matches) the worker observes `quit_event.is_set()` and terminates. -/
  | wQuit {q lk ws dd u pl} {k : Nat} (hk : k < c.N) (hw : ws k = .idle) :
      Step c ⟨q, lk, ws, dd, true, u, pl⟩
             ⟨q, lk, Function.update ws k .done, dd, true, u, pl⟩

/-- Reachability from the initial state by any interleaving. -/
inductive Reach (c : Cfg) : St → Prop
  | start : Reach c St.start
  | step {s s' : St} : Reach c s → Step c s s' → Reach c s'

/-! ## Concrete instances used by the claim theorems and witnesses -/

/-- The rational `1/2` (the `fraction_kept = 0.5` of the spec's end-to-end
scenario), given by explicit numerator and denominator so that its fields
evaluate by kernel reduction; `half_eq` proves it equals `1 / 2`. -/
def half : ℚ := ⟨1, 2, by norm_num, by norm_num⟩

/-- Choice oracle resolving every `random.choice` call to the first element. -/
def oracleZero : Nat → Nat → Nat := fun _ _ => 0

/-- Single-generation choice oracle: always pick the first element. -/
def oracleZero1 : Nat → Nat := fun _ => 0

/-- A `run_generation` outcome that leaves every rating unchanged (for
example, when every match is a draw and the elo update moves nothing). -/
def playId : Nat → List Agent → List Agent := fun _ ps => ps

/-- A `run_generation` outcome for a population of 4: the two matches of the
single sub-generation leave the four agents with ratings `3, 2, 1, 0` in this
order.  Any elo formula distinguishing winners from losers can produce
pairwise-distinct ratings; the exact values stand for one such run. -/
def playC5 : Nat → List Agent → List Agent :=
  fun _ _ => [⟨3, .fresh⟩, ⟨2, .fresh⟩, ⟨1, .fresh⟩, ⟨0, .fresh⟩]

/-- Configuration for the C1 schedule: 2 agents, 1 worker, 1 sub-generation,
identity shuffle. -/
def cfgC1 : Cfg := ⟨2, 1, 1, fun _ i => i⟩

/-- State reached by the C1 schedule: the worker holds both agents in a match
still being played, the queue is empty, and the driver has already passed
the drain poll and finished the (only) sub-generation. -/
def stC1 : St :=
  ⟨[], none,
    Function.update (Function.update (fun _ => WStat.idle) 0 (WStat.tookOne 0)) 0
      (WStat.playing 0 1),
    DStat.quitting, false, fun _ => 0, 0⟩

/-- Configuration for the C2 witness schedule: 2 agents, 1 worker,
1 sub-generation, identity shuffle. -/
def cfgC2 : Cfg := ⟨2, 1, 1, fun _ i => i⟩

/-- State for the C2 witness: the worker has done its first `get` under
`queue_lock` and holds agent 0; agent 1 is still queued. -/
def stC2 : St :=
  ⟨[1], some 0, Function.update (fun _ => WStat.idle) 0 (WStat.tookOne 0),
    DStat.drain 0, false, fun _ => 0, 0⟩

/-- Configuration for the C3 schedule: 2 agents, 1 worker, 2 sub-generations,
identity shuffle. -/
def cfgC3 : Cfg := ⟨2, 1, 2, fun _ i => i⟩

/-- State reached by the C3 schedule: the match of sub-generation 0 is still
being played while the driver has already begun enqueueing the agents of
sub-generation 1 (agent 0 is in the queue again). -/
def stC3 : St :=
  ⟨[0], none,
    Function.update (Function.update (fun _ => WStat.idle) 0 (WStat.tookOne 0)) 0
      (WStat.playing 0 1),
    DStat.enq 1 1, false, fun _ => 0, 0⟩

/-- Configuration for the C8 schedule: 2 agents, 1 worker, 1 sub-generation,
identity shuffle. -/
def cfgC8 : Cfg := ⟨2, 1, 1, fun _ i => i⟩

/-- State reached by the C8 schedule: the only match raised inside the worker
thread, the thread died, and the driver has set quit, joined the dead thread
and returned normally — with zero completed matches and zero rating updates. -/
def stC8 : St :=
  ⟨[], none,
    Function.update
      (Function.update (Function.update (fun _ => WStat.idle) 0 (WStat.tookOne 0)) 0
        (WStat.playing 0 1)) 0 WStat.crashed,
    DStat.returned, true, fun _ => 0, 0⟩

/-- Configuration for the C9 witness schedule: 0 agents, 0 workers,
1 sub-generation. -/
def cfgC9 : Cfg := ⟨0, 0, 1, fun _ i => i⟩

/-- State for the C9 witness: the driver has completed shutdown and returned. -/
def stC9 : St := ⟨[], none, fun _ => WStat.idle, DStat.returned, true, fun _ => 0, 0⟩

/-! ### Basic lemmas about the pipeline -/

theorem keepCount_eq_floor (len : Nat) (f : ℚ) :
    keepCount len f = (⌊(len : ℚ) * f⌋).toNat := by
  unfold keepCount
  congr 1
  rw [← Rat.floor_intCast_div_natCast ((len : Int) * f.num) f.den]
  congr 1
  push_cast
  rw [mul_div_assoc, Rat.num_div_den]

theorem sortDesc_perm (ps : List Agent) : (sortDesc ps).Perm ps :=
  List.perm_insertionSort byRatingDesc ps

theorem sortDesc_sorted (ps : List Agent) : List.Sorted byRatingDesc (sortDesc ps) :=
  List.sorted_insertionSort byRatingDesc ps

theorem sortDesc_length (ps : List Agent) : (sortDesc ps).length = ps.length :=
  (sortDesc_perm ps).length_eq

theorem select_sorted (f : ℚ) (ps : List Agent) :
    List.Sorted byRatingDesc (select f ps) :=
  (sortDesc_sorted ps).sublist (List.take_sublist _ _)

theorem reproduceGo_ok_append (mr : ℚ) (c : Nat → Nat) (i : Nat) :
    ∀ fuel k ps r, reproduceGo mr c i k fuel ps = .ok r → ∃ t, r = ps ++ t := by
  intro fuel
  induction fuel with
  | zero =>
    intro k ps r h
    exact ⟨[], by simpa [reproduceGo] using h.symm⟩
  | succ n ih =>
    intro k ps r h
    rw [reproduceGo] at h
    by_cases hi : i % 2 = 0
    · simp only [hi, if_pos rfl] at h
      rcases hg : ps.get? (c k % ps.length) with _ | p
      · rw [hg] at h; cases h
      · rw [hg] at h
        obtain ⟨t, ht⟩ := ih (k + 1) _ r h
        exact ⟨(p.copy).mutate mr :: t, by simpa using ht⟩
    · rw [if_neg hi] at h
      obtain ⟨t, ht⟩ := ih (k + 1) _ r h
      exact ⟨NNPlayer.new :: t, by simpa using ht⟩

theorem reproduceGo_ok_length (mr : ℚ) (c : Nat → Nat) (i : Nat) :
    ∀ fuel k ps r, reproduceGo mr c i k fuel ps = .ok r →
      r.length = ps.length + fuel := by
  intro fuel
  induction fuel with
  | zero =>
    intro k ps r h
    have : ps = r := by simpa [reproduceGo] using h
    simp [← this]
  | succ n ih =>
    intro k ps r h
    rw [reproduceGo] at h
    by_cases hi : i % 2 = 0
    · simp only [hi, if_pos rfl] at h
      rcases hg : ps.get? (c k % ps.length) with _ | p
      · rw [hg] at h; cases h
      · rw [hg] at h
        have hl := ih (k + 1) _ r h
        simp at hl; omega
    · rw [if_neg hi] at h
      have hl := ih (k + 1) _ r h
      simp at hl; omega

theorem reproduceGo_ok_of_ne_nil (mr : ℚ) (c : Nat → Nat) (i : Nat) :
    ∀ fuel k ps, ps ≠ [] → ∃ r, reproduceGo mr c i k fuel ps = .ok r := by
  intro fuel
  induction fuel with
  | zero => intro k ps _; exact ⟨ps, rfl⟩
  | succ n ih =>
    intro k ps hps
    rw [reproduceGo]
    by_cases hi : i % 2 = 0
    · rw [if_pos hi]
      have hlen : 0 < ps.length := List.length_pos.mpr hps
      have hlt : c k % ps.length < ps.length := Nat.mod_lt _ hlen
      rcases hg : ps.get? (c k % ps.length) with _ | p
      · exact absurd (List.get?_eq_none.mp hg) (by omega)
      · exact ih (k + 1) _ (by simp)
    · rw [if_neg hi]
      exact ih (k + 1) _ (by simp)

theorem reproduce_ok_append (P : Nat) (mr : ℚ) (c : Nat → Nat) (ps r : List Agent)
    (h : reproduce P mr c ps = .ok r) : ∃ t, r = ps ++ t :=
  reproduceGo_ok_append mr c 0 _ _ _ _ h

theorem reproduce_ok_length (P : Nat) (mr : ℚ) (c : Nat → Nat) (ps r : List Agent)
    (h : reproduce P mr c ps = .ok r) : r.length = max P ps.length := by
  have hl := reproduceGo_ok_length mr c 0 _ _ _ _ h
  omega

theorem reproduce_ok_of_ne_nil (P : Nat) (mr : ℚ) (c : Nat → Nat) (ps : List Agent)
    (hps : ps ≠ []) : ∃ r, reproduce P mr c ps = .ok r :=
  reproduceGo_ok_of_ne_nil mr c 0 _ 0 ps hps


theorem half_eq : half = 1 / 2 := Rat.ext (by norm_num [half]) (by norm_num [half])

theorem select_length (f : ℚ) (ps : List Agent) :
    (select f ps).length = min (keepCount ps.length f) ps.length := by
  simp [select, sortDesc_length]

/-- C6: the SELECT step sorts the population by rating descending and keeps
exactly the first `⌊P · fraction_kept⌋` agents of the sorted sequence, where
`P` is the pre-selection population size: the sorted sequence is a
permutation of the pre-selection population (no duplicates, no omissions),
it is sorted descending, and every kept agent's rating is at least every
discarded agent's rating. -/
theorem select_spec (f : ℚ) (ps : List Agent) :
    select f ps = (sortDesc ps).take ((⌊(ps.length : ℚ) * f⌋).toNat)
    ∧ (sortDesc ps).Perm ps
    ∧ List.Sorted byRatingDesc (sortDesc ps)
    ∧ ∀ x ∈ select f ps, ∀ y ∈ (sortDesc ps).drop (keepCount ps.length f),
        y.rating ≤ x.rating := by
  refine ⟨by rw [select, keepCount_eq_floor], sortDesc_perm ps, sortDesc_sorted ps, ?_⟩
  intro x hx y hy
  exact (sortDesc_sorted ps).rel_of_mem_take_of_mem_drop hx hy

/-- C7: `train` raises `OddPopulationError` exactly for odd population sizes,
and it does so before creating any other state: the check is the first
statement of `train`, ahead of the `try` block that spawns worker threads,
and the error value does not depend on any other argument.  For every even
population size no error at all reaches the caller (any exception raised
later inside `try` is absorbed by the `return` in `finally`). -/
theorem odd_population_check (P : Nat) (f : ℚ) (gens sg : Nat) (mr : ℚ)
    (corc : Nat → Nat → Nat) (play : Nat → List Agent → List Agent) :
    (P % 2 = 1 → train P f gens sg mr corc play = .error .oddPopulationError)
    ∧ (P % 2 = 0 → ∃ ps, train P f gens sg mr corc play = .ok ps) := by
  constructor
  · intro h
    unfold train
    rw [if_pos (by omega)]
  · intro h
    unfold train
    rw [if_neg (by omega)]
    exact ⟨_, rfl⟩

theorem odd_population_check_witness :
    (train 3 half 1 1 0 oracleZero playId = .error .oddPopulationError)
    ∧ ∃ ps, train 4 half 1 1 0 oracleZero playId = .ok ps :=
  ⟨(odd_population_check 3 half 1 1 0 oracleZero playId).1 (by decide),
   (odd_population_check 4 half 1 1 0 oracleZero playId).2 (by decide)⟩

/-- C4: the claim's alternation does not happen.  On the spec's own scenario
(population 4, half kept, so 2 survivors with ratings 5 and 3 and 2
replacements to produce), the reproduction loop returns two mutated clones
and zero fresh agents: the loop counter `i` is never incremented in the
source, so the test `i % 2 == 0` always succeeds and the fresh branch is
dead code. -/
theorem reproduce_no_alternation_bug :
    reproduce 4 0 oracleZero1 [⟨5, .fresh⟩, ⟨3, .fresh⟩]
      = .ok [⟨5, .fresh⟩, ⟨3, .fresh⟩, ⟨5, .cloned⟩, ⟨5, .cloned⟩]
    ∧ List.countP (fun a => decide (a.kind = AgentKind.cloned))
        (List.drop 2 [(⟨5, .fresh⟩ : Agent), ⟨3, .fresh⟩, ⟨5, .cloned⟩, ⟨5, .cloned⟩]) = 2
    ∧ List.countP (fun a => decide (a.kind = AgentKind.fresh))
        (List.drop 2 [(⟨5, .fresh⟩ : Agent), ⟨3, .fresh⟩, ⟨5, .cloned⟩, ⟨5, .cloned⟩]) = 0 :=
  ⟨rfl, by decide, by decide⟩

/-- C5 counterexample: a complete 1-generation run with population 4 and
`fraction_kept = 1/2` whose returned population is not sorted descending by
rating.  The matches leave ratings `3, 2, 1, 0`; SELECT keeps `[3, 2]`; the
reproduction loop appends two clones of the top survivor, so `train` returns
ratings `3, 2, 3, 3` — and `2 < 3` breaks the descending order. -/
theorem train_returns_unsorted_counterexample :
    train 4 half 1 1 0 oracleZero playC5
      = .ok [⟨3, .fresh⟩, ⟨2, .fresh⟩, ⟨3, .cloned⟩, ⟨3, .cloned⟩]
    ∧ ¬ List.Sorted byRatingDesc [⟨3, .fresh⟩, ⟨2, .fresh⟩, ⟨3, .cloned⟩, ⟨3, .cloned⟩] :=
  ⟨rfl, by decide⟩

theorem runGenerations_succ_cons (P : Nat) (f mr : ℚ) (corc : Nat → Nat → Nat)
    (play : Nat → List Agent → List Agent) (g n : Nat) (a : Agent) (t : List Agent) :
    runGenerations P f mr corc play g (n + 1) (a :: t)
      = match reproduce P mr (corc g) (select f (play g (a :: t))) with
        | .error e => .error e
        | .ok ps' => runGenerations P f mr corc play (g + 1) n ps' := rfl

theorem runGenerations_succ_nil (P : Nat) (f mr : ℚ) (corc : Nat → Nat → Nat)
    (play : Nat → List Agent → List Agent) (g n : Nat) :
    runGenerations P f mr corc play g (n + 1) [] = .error (.indexErrorPrint, []) := rfl

theorem reproduce_nil_error (P : Nat) (mr : ℚ) (c : Nat → Nat) (hP : 1 ≤ P) :
    reproduce P mr c [] = .error (.indexErrorChoice, []) := by
  rcases P with _ | p
  · omega
  · rfl

theorem runGenerations_ok (P : Nat) (f mr : ℚ) (corc : Nat → Nat → Nat)
    (play : Nat → List Agent → List Agent)
    (hplay : ∀ g ps, (play g ps).length = ps.length)
    (hkeep : 1 ≤ keepCount P f) :
    ∀ G g ps, ps.length = P → ps ≠ [] →
      ∃ r, runGenerations P f mr corc play g G ps = .ok r ∧ r.length = P := by
  intro G
  induction G with
  | zero =>
    intro g ps hlen _
    exact ⟨ps, rfl, hlen⟩
  | succ n ih =>
    intro g ps hlen hne
    rcases ps with _ | ⟨a, t⟩
    · exact absurd rfl hne
    · have hcons : (a :: t).length = t.length + 1 := rfl
      have hposP : 1 ≤ P := by omega
      have hmidlen : (play g (a :: t)).length = P := by rw [hplay]; exact hlen
      have hsl : (select f (play g (a :: t))).length = min (keepCount P f) P := by
        rw [select_length, hmidlen]
      have hselne : select f (play g (a :: t)) ≠ [] := by
        intro hnil
        rw [hnil] at hsl
        simp at hsl
        omega
      obtain ⟨r1, hr1⟩ := reproduce_ok_of_ne_nil P mr (corc g) _ hselne
      have hr1len : r1.length = P := by
        have := reproduce_ok_length P mr (corc g) _ r1 hr1
        omega
      have hr1ne : r1 ≠ [] := by
        intro hnil
        rw [hnil] at hr1len
        simp at hr1len
        omega
      obtain ⟨r, hr, hrlen⟩ := ih (g + 1) r1 hr1len hr1ne
      refine ⟨r, ?_, hrlen⟩
      rw [runGenerations_succ_cons, hr1]
      exact hr

theorem runGenerations_succ (P : Nat) (f mr : ℚ) (corc : Nat → Nat → Nat)
    (play : Nat → List Agent → List Agent) (g n : Nat) (ps : List Agent) :
    runGenerations P f mr corc play g (n + 1) ps
      = match generationStep P f mr (corc g) (play g) ps with
        | .error e => .error e
        | .ok ps' => runGenerations P f mr corc play (g + 1) n ps' := rfl

theorem runGenerations_snoc (P : Nat) (f mr : ℚ) (corc : Nat → Nat → Nat)
    (play : Nat → List Agent → List Agent) :
    ∀ G g ps r, runGenerations P f mr corc play g (G + 1) ps = .ok r →
      ∃ psLast, runGenerations P f mr corc play g G ps = .ok psLast
        ∧ generationStep P f mr (corc (g + G)) (play (g + G)) psLast = .ok r := by
  intro G
  induction G with
  | zero =>
    intro g ps r h
    rw [runGenerations_succ] at h
    rcases hgs : generationStep P f mr (corc g) (play g) ps with e | ps'
    · rw [hgs] at h
      cases h
    · rw [hgs] at h
      have hr : ps' = r := by simpa [runGenerations] using h
      subst hr
      exact ⟨ps, rfl, hgs⟩
  | succ n ih =>
    intro g ps r h
    rw [runGenerations_succ] at h
    rcases hgs : generationStep P f mr (corc g) (play g) ps with e | ps'
    · rw [hgs] at h
      cases h
    · rw [hgs] at h
      obtain ⟨psLast, hmid, hstep⟩ := ih (g + 1) ps' r h
      refine ⟨psLast, ?_, ?_⟩
      · rw [runGenerations_succ, hgs]
        exact hmid
      · have hgn : g + 1 + n = g + (n + 1) := by omega
        rw [← hgn]
        exact hstep

/-- C5 (amended): the population `train` returns is the one the final
REPRODUCE leaves behind.  Precisely: let `psLast` be the population entering
the final generation (the unique result of the first `G` generations) and
`kept := select f (play G psLast)` the agents the final SELECT retains from
the final match phase; then the final REPRODUCE returns exactly
`kept ++ rest` for the appended replacements `rest`, the returned population
is that very list, and its `kept` prefix is sorted descending by rating.
The returned list as a whole is not sorted in general — see the
counterexample, where the appended clones out-rate the last survivor. -/
theorem train_sorted_prefix (P : Nat) (f mr : ℚ) (corc : Nat → Nat → Nat)
    (play : Nat → List Agent → List Agent) (G sg : Nat) (r : List Agent)
    (hP : P % 2 = 0)
    (h : runGenerations P f mr corc play 0 (G + 1) (initialPopulation P) = .ok r) :
    train P f (G + 1) sg mr corc play = .ok r
    ∧ ∃ psLast rest,
        runGenerations P f mr corc play 0 G (initialPopulation P) = .ok psLast
        ∧ reproduce P mr (corc G) (select f (play G psLast))
            = .ok (select f (play G psLast) ++ rest)
        ∧ r = select f (play G psLast) ++ rest
        ∧ List.Sorted byRatingDesc (select f (play G psLast)) := by
  constructor
  · unfold train
    rw [if_neg (by omega), h]
  · obtain ⟨psLast, hmid, hstep⟩ := runGenerations_snoc P f mr corc play G 0 _ r h
    rw [Nat.zero_add] at hstep
    rcases psLast with _ | ⟨a, t⟩
    · rw [show generationStep P f mr (corc G) (play G) []
          = .error (.indexErrorPrint, []) from rfl] at hstep
      cases hstep
    · have hrep : reproduce P mr (corc G) (select f (play G (a :: t))) = .ok r := hstep
      obtain ⟨rest, hr⟩ := reproduce_ok_append P mr (corc G) _ _ hrep
      refine ⟨a :: t, rest, hmid, ?_, hr, select_sorted f (play G (a :: t))⟩
      rw [← hr]
      exact hrep

theorem train_sorted_prefix_witness :
    train 4 half 1 1 0 oracleZero playC5
      = .ok [⟨3, .fresh⟩, ⟨2, .fresh⟩, ⟨3, .cloned⟩, ⟨3, .cloned⟩]
    ∧ ∃ psLast rest,
        runGenerations 4 half 0 oracleZero playC5 0 0 (initialPopulation 4) = .ok psLast
        ∧ reproduce 4 0 (oracleZero 0) (select half (playC5 0 psLast))
            = .ok (select half (playC5 0 psLast) ++ rest)
        ∧ [(⟨3, .fresh⟩ : Agent), ⟨2, .fresh⟩, ⟨3, .cloned⟩, ⟨3, .cloned⟩]
            = select half (playC5 0 psLast) ++ rest
        ∧ List.Sorted byRatingDesc (select half (playC5 0 psLast)) :=
  train_sorted_prefix 4 half 0 oracleZero playC5 0 1
    [⟨3, .fresh⟩, ⟨2, .fresh⟩, ⟨3, .cloned⟩, ⟨3, .cloned⟩] (by decide) rfl

/-- C10 counterexample: with population size 0 (which is even) and one
generation, the run does not fail in the clone step's `random.choice` as the
claim states: the failure happens earlier, at the `players[0]` subscript of
the per-generation progress print, and `train` itself returns the empty
population normally (the `finally` block swallows the exception). -/
theorem empty_population_choice_counterexample :
    train 0 half 1 1 0 oracleZero playId = .ok []
    ∧ runGenerations 0 half 0 oracleZero playId 0 1 (initialPopulation 0)
        = .error (.indexErrorPrint, [])
    ∧ PyError.indexErrorPrint ≠ PyError.indexErrorChoice :=
  ⟨rfl, rfl, by decide⟩

/-- C10 (amended): for every even population size with `generations ≥ 1` and
a per-generation match phase that preserves the population's length, if
`int(P · fraction_kept) ≥ 1` then the survivor list is non-empty at every
reproduction iteration and the whole generation loop succeeds (no
`random.choice` on an empty list, and no other internal error); if
`int(P · fraction_kept) = 0` and `P ≥ 2`, selection empties the population
and the first clone step's `random.choice` raises `IndexError`.  (With
`P = 0` the loop instead fails at the progress print — see the
counterexample; `keepCount P f` is `int(P * fraction_kept)`, equal to
`⌊P · fraction_kept⌋` by `keepCount_eq_floor`.) -/
theorem choice_safety (P : Nat) (f mr : ℚ) (corc : Nat → Nat → Nat)
    (play : Nat → List Agent → List Agent) (G : Nat)
    (hP : P % 2 = 0) (hG : 1 ≤ G)
    (hplay : ∀ g ps, (play g ps).length = ps.length) :
    (1 ≤ keepCount P f →
      ∃ r, runGenerations P f mr corc play 0 G (initialPopulation P) = .ok r)
    ∧ (keepCount P f = 0 → 2 ≤ P →
      runGenerations P f mr corc play 0 G (initialPopulation P)
        = .error (.indexErrorChoice, [])) := by
  constructor
  · intro hkeep
    have hPpos : 1 ≤ P := by
      by_contra hc
      have hP0 : P = 0 := by omega
      subst hP0
      simp [keepCount] at hkeep
    obtain ⟨r, hr, _⟩ := runGenerations_ok P f mr corc play hplay hkeep G 0
      (initialPopulation P) (by simp [initialPopulation])
      (by simp [initialPopulation]; omega)
    exact ⟨r, hr⟩
  · intro hkeep hP2
    obtain ⟨G', rfl⟩ : ∃ G', G = G' + 1 := ⟨G - 1, by omega⟩
    obtain ⟨p', rfl⟩ : ∃ p', P = p' + 1 := ⟨P - 1, by omega⟩
    have hinit : initialPopulation (p' + 1) = NNPlayer.new :: List.replicate p' NNPlayer.new := by
      simp [initialPopulation, List.replicate_succ]
    rw [hinit, runGenerations_succ_cons]
    have hmidlen : (play 0 (NNPlayer.new :: List.replicate p' NNPlayer.new)).length = p' + 1 := by
      rw [hplay]
      simp
    have hsel : select f (play 0 (NNPlayer.new :: List.replicate p' NNPlayer.new)) = [] := by
      unfold select
      rw [hmidlen, hkeep]
      exact List.take_zero _
    rw [hsel, reproduce_nil_error (p' + 1) mr (corc 0) (by omega)]

theorem choice_safety_witness :
    (1 ≤ keepCount 2 half →
      ∃ r, runGenerations 2 half 0 oracleZero playId 0 1 (initialPopulation 2) = .ok r)
    ∧ (keepCount 2 half = 0 → 2 ≤ 2 →
      runGenerations 2 half 0 oracleZero playId 0 1 (initialPopulation 2)
        = .error (.indexErrorChoice, [])) :=
  choice_safety 2 half 0 oracleZero playId 1 (by decide) (by decide) (fun g ps => rfl)

/-! ### Claims about the concurrent core -/

theorem reach_tookOne_inv {c : Cfg} {s : St} (h : Reach c s) :
    ∀ k a, s.w k = .tookOne a → s.lock = some k ∧ s.queue ≠ [] := by
  induction h with
  | start =>
    intro k a hw
    simp [St.start] at hw
  | step hr hs ih =>
    cases hs with
    | @put q lk ws qt u pl g i hi =>
      intro k a hw
      exact ⟨(ih k a hw).1, by simp⟩
    | @enqDone q lk ws qt u pl g =>
      intro k a hw
      exact ih k a hw
    | @drainNext q lk ws qt u pl g hq hg =>
      intro k a hw
      exact ih k a hw
    | @drainLast q lk ws qt u pl g hq hg =>
      intro k a hw
      exact ih k a hw
    | @setQuit q lk ws qt u pl =>
      intro k a hw
      exact ih k a hw
    | @joinAll q lk ws u pl hws =>
      intro k a hw
      exact ih k a hw
    | @takeFirst a0 b0 t0 ws dd qt u pl k0 hk hw =>
      intro k a hw'
      dsimp only at hw' ⊢
      by_cases hkk : k = k0
      · subst hkk
        rw [Function.update_same] at hw'
        cases hw'
        exact ⟨rfl, by simp⟩
      · rw [Function.update_noteq hkk] at hw'
        exact absurd (ih k a hw').1 (by simp)
    | @takeSecond b0 t0 ws dd qt u pl k0 a0 hw =>
      intro k a hw'
      dsimp only at hw' ⊢
      by_cases hkk : k = k0
      · subst hkk
        rw [Function.update_same] at hw'
        cases hw'
      · rw [Function.update_noteq hkk] at hw'
        have hlk := (ih k a hw').1
        exact absurd (Option.some.inj hlk).symm hkk
    | @finish q lk ws dd qt u pl k0 a0 b0 hw =>
      intro k a hw'
      dsimp only at hw' ⊢
      by_cases hkk : k = k0
      · subst hkk
        rw [Function.update_same] at hw'
        cases hw'
      · rw [Function.update_noteq hkk] at hw'
        exact ih k a hw'
    | @crash q lk ws dd qt u pl k0 a0 b0 hw =>
      intro k a hw'
      dsimp only at hw' ⊢
      by_cases hkk : k = k0
      · subst hkk
        rw [Function.update_same] at hw'
        cases hw'
      · rw [Function.update_noteq hkk] at hw'
        exact ih k a hw'
    | @wQuit q lk ws dd u pl k0 hk hw =>
      intro k a hw'
      dsimp only at hw' ⊢
      by_cases hkk : k = k0
      · subst hkk
        rw [Function.update_same] at hw'
        cases hw'
      · rw [Function.update_noteq hkk] at hw'
        exact ih k a hw'

/-- C2: the pair-take is atomic.  In every reachable state, a worker that is
between its two `queue.get()` calls (holding a single agent) also holds
`queue_lock` and the queue is non-empty, so its second `get` is enabled
immediately: it can step to a full pair, taking exactly the old queue head,
and no worker is ever stuck holding a single unpaired agent.  Together with
the `takeFirst` rule — enabled only when the lock is free and at least two
agents are queued — every completed take removes exactly two agents, and a
take that observes fewer than two removes none. -/
theorem pair_take_atomic {c : Cfg} {s : St} (h : Reach c s) :
    ∀ k a, s.w k = .tookOne a →
      s.lock = some k ∧ s.queue ≠ [] ∧
      ∃ s', Step c s s' ∧ s'.w k = WStat.playing a s.queue.headI
        ∧ s'.queue = s.queue.tail ∧ s'.lock = none := by
  intro k a hw
  obtain ⟨h1, h2⟩ := reach_tookOne_inv h k a hw
  obtain ⟨q, lk, ws, dd, qt, u, pl⟩ := s
  rcases q with _ | ⟨b, t⟩
  · exact absurd rfl h2
  · subst h1
    refine ⟨rfl, h2, ⟨t, none, Function.update ws k (.playing a b), dd, qt, u, pl⟩,
      Step.takeSecond hw, ?_, rfl, rfl⟩
    simp

theorem pair_take_atomic_witness :
    stC2.lock = some 0 ∧ stC2.queue ≠ [] ∧
    ∃ s', Step cfgC2 stC2 s' ∧ s'.w 0 = WStat.playing 0 stC2.queue.headI
      ∧ s'.queue = stC2.queue.tail ∧ s'.lock = none :=
  pair_take_atomic (Reach.step (Reach.step (Reach.step (Reach.step Reach.start
    (Step.put (by decide))) (Step.put (by decide))) Step.enqDone)
    (Step.takeFirst (by decide) rfl)) 0 0 rfl

theorem shutdown_inv {c : Cfg} {s : St} (h : Reach c s) :
    (s.quit = true → s.d = .joining ∨ s.d = .returned)
    ∧ (s.d = .returned → s.quit = true ∧
        ∀ k, k < c.N → s.w k = .done ∨ s.w k = .crashed) := by
  induction h with
  | start => exact ⟨by simp [St.start], by simp [St.start]⟩
  | step hr hs ih =>
    obtain ⟨ih1, ih2⟩ := ih
    cases hs with
    | @put q lk ws qt u pl g i hi =>
      refine ⟨?_, ?_⟩
      · intro hq
        rcases ih1 hq with h | h <;> simp at h
      · intro hd
        simp at hd
    | @enqDone q lk ws qt u pl g =>
      refine ⟨?_, ?_⟩
      · intro hq
        rcases ih1 hq with h | h <;> simp at h
      · intro hd
        simp at hd
    | @drainNext q lk ws qt u pl g hq hg =>
      refine ⟨?_, ?_⟩
      · intro hquit
        rcases ih1 hquit with h | h <;> simp at h
      · intro hd
        simp at hd
    | @drainLast q lk ws qt u pl g hq hg =>
      refine ⟨?_, ?_⟩
      · intro hquit
        rcases ih1 hquit with h | h <;> simp at h
      · intro hd
        simp at hd
    | @setQuit q lk ws qt u pl =>
      refine ⟨fun _ => Or.inl rfl, ?_⟩
      intro hd
      simp at hd
    | @joinAll q lk ws u pl hws =>
      exact ⟨fun _ => Or.inr rfl, fun _ => ⟨rfl, fun k hk => hws k hk⟩⟩
    | @takeFirst a0 b0 t0 ws dd qt u pl k0 hk hw =>
      refine ⟨ih1, ?_⟩
      intro hd
      obtain ⟨hqt, hws⟩ := ih2 hd
      have h2 := hws k0 hk
      dsimp only at h2
      rcases h2 with h | h <;> rw [hw] at h <;> cases h
    | @takeSecond b0 t0 ws dd qt u pl k0 a0 hw =>
      refine ⟨ih1, ?_⟩
      intro hd
      obtain ⟨hqt, hws⟩ := ih2 hd
      refine ⟨hqt, ?_⟩
      intro k' hk'
      dsimp only at hws ⊢
      by_cases hkk : k' = k0
      · subst hkk
        rcases hws k' hk' with h | h <;> rw [hw] at h <;> cases h
      · rw [Function.update_noteq hkk]
        exact hws k' hk'
    | @finish q lk ws dd qt u pl k0 a0 b0 hw =>
      refine ⟨ih1, ?_⟩
      intro hd
      obtain ⟨hqt, hws⟩ := ih2 hd
      refine ⟨hqt, ?_⟩
      intro k' hk'
      dsimp only at hws ⊢
      by_cases hkk : k' = k0
      · subst hkk
        rcases hws k' hk' with h | h <;> rw [hw] at h <;> cases h
      · rw [Function.update_noteq hkk]
        exact hws k' hk'
    | @crash q lk ws dd qt u pl k0 a0 b0 hw =>
      refine ⟨ih1, ?_⟩
      intro hd
      obtain ⟨hqt, hws⟩ := ih2 hd
      refine ⟨hqt, ?_⟩
      intro k' hk'
      dsimp only at hws ⊢
      by_cases hkk : k' = k0
      · subst hkk
        rcases hws k' hk' with h | h <;> rw [hw] at h <;> cases h
      · rw [Function.update_noteq hkk]
        exact hws k' hk'
    | @wQuit q lk ws dd u pl k0 hk hw =>
      refine ⟨fun _ => ih1 rfl, ?_⟩
      intro hd
      obtain ⟨hqt, hws⟩ := ih2 hd
      refine ⟨rfl, ?_⟩
      intro k' hk'
      dsimp only at hws ⊢
      by_cases hkk : k' = k0
      · subst hkk
        exact Or.inl (Function.update_same _ _ _)
      · rw [Function.update_noteq hkk]
        exact hws k' hk'

/-- C9: shutdown is clean.  In every reachable state: the quit event is set
only after the driver has finished all sub-generations (once set, the driver
is joining or has returned — it is set once, at the very end); and whenever
the driver has returned to the caller, the quit event is set, every worker
thread has terminated (the `join` calls require it), and in particular no
worker holds agents of an unfinished match: workers exit only at their
between-matches loop head, after completing `board.play()` and
`NNPlayer.update_elo` of any match they started. -/
theorem shutdown_clean {c : Cfg} {s : St} (h : Reach c s) :
    (s.quit = true → s.d = .joining ∨ s.d = .returned)
    ∧ (s.d = .returned → s.quit = true ∧
        ∀ k, k < c.N →
          (s.w k = .done ∨ s.w k = .crashed)
          ∧ (∀ a b, s.w k ≠ .playing a b) ∧ ∀ a, s.w k ≠ .tookOne a) := by
  obtain ⟨h1, h2⟩ := shutdown_inv h
  refine ⟨h1, ?_⟩
  intro hd
  obtain ⟨hq, hw⟩ := h2 hd
  refine ⟨hq, ?_⟩
  intro k hk
  rcases hw k hk with hcase | hcase
  · exact ⟨Or.inl hcase, fun a b => by rw [hcase]; simp, fun a => by rw [hcase]; simp⟩
  · exact ⟨Or.inr hcase, fun a b => by rw [hcase]; simp, fun a => by rw [hcase]; simp⟩

theorem shutdown_clean_witness :
    (stC9.quit = true → stC9.d = DStat.joining ∨ stC9.d = DStat.returned)
    ∧ (stC9.d = DStat.returned → stC9.quit = true ∧
        ∀ k, k < cfgC9.N →
          (stC9.w k = WStat.done ∨ stC9.w k = WStat.crashed)
          ∧ (∀ a b, stC9.w k ≠ WStat.playing a b) ∧ ∀ a, stC9.w k ≠ WStat.tookOne a) :=
  shutdown_clean (Reach.step (Reach.step (Reach.step (Reach.step Reach.start
    Step.enqDone) (Step.drainLast (by decide) (by decide))) Step.setQuit)
    (Step.joinAll (fun k hk => absurd hk (Nat.not_lt_zero k))))

/-- C1: the claim fails on the code.  Schedule (population 2, one worker, one
sub-generation, reachable by the rules above): the driver enqueues both
agents; the worker takes the pair and starts the match; one driver poll of
`player_queue.qsize() > 1` reads 0 and ends the sub-generation.  In the state
reached, the driver has completed AWAIT_DRAIN of its only sub-generation
(control state `quitting`, past the drain), yet 0 matches — not P/2 = 1 —
have been completed and neither agent's rating has been updated even once:
the size poll cannot tell "all pairs dispatched" from "all matches done". -/
theorem drain_poll_race_bug :
    Reach cfgC1 stC1 ∧ stC1.d = DStat.quitting ∧ stC1.played = 0
    ∧ stC1.upd 0 = 0 ∧ stC1.upd 1 = 0 ∧ stC1.w 0 = WStat.playing 0 1 :=
  by
  refine ⟨?_, rfl, rfl, rfl, rfl, rfl⟩
  have h1 : Reach cfgC1 ⟨[0], none, fun _ => WStat.idle, DStat.enq 0 1, false, fun _ => 0, 0⟩ :=
    Reach.step Reach.start (Step.put (by decide))
  have h2 : Reach cfgC1 ⟨[0, 1], none, fun _ => WStat.idle, DStat.enq 0 2, false, fun _ => 0, 0⟩ :=
    Reach.step h1 (Step.put (by decide))
  have h3 : Reach cfgC1 ⟨[0, 1], none, fun _ => WStat.idle, DStat.drain 0, false, fun _ => 0, 0⟩ :=
    Reach.step h2 Step.enqDone
  have h4 : Reach cfgC1 ⟨[1], some 0,
      Function.update (fun _ => WStat.idle) 0 (WStat.tookOne 0),
      DStat.drain 0, false, fun _ => 0, 0⟩ :=
    Reach.step h3 (Step.takeFirst (by decide) rfl)
  have h5 : Reach cfgC1 ⟨[], none,
      Function.update (Function.update (fun _ => WStat.idle) 0 (WStat.tookOne 0)) 0
        (WStat.playing 0 1),
      DStat.drain 0, false, fun _ => 0, 0⟩ :=
    Reach.step h4 (Step.takeSecond rfl)
  exact Reach.step h5 (Step.drainLast (by decide) (by decide))

/-- C3: the claim fails on the code.  Schedule (population 2, one worker, two
sub-generations): the worker takes the pair of sub-generation 0 and is still
playing it when the driver's `qsize() > 1` poll reads 0; the driver then
starts sub-generation 1 and enqueues agent 0 again.  In the state reached, an
agent of sub-generation 1 is already queued (driver control state
`enq 1 1`, queue `[0]`) while the match of sub-generation 0 is still in
flight and 0 matches have completed: sub-generations are not causally
ordered, because the drain is a queue-size poll, not a completion signal. -/
theorem subgeneration_overlap_bug :
    Reach cfgC3 stC3 ∧ stC3.d = DStat.enq 1 1 ∧ stC3.queue = [0]
    ∧ stC3.w 0 = WStat.playing 0 1 ∧ stC3.played = 0
    ∧ stC3.upd 0 = 0 ∧ stC3.upd 1 = 0 :=
  by
  refine ⟨?_, rfl, rfl, rfl, rfl, rfl, rfl⟩
  have h1 : Reach cfgC3 ⟨[0], none, fun _ => WStat.idle, DStat.enq 0 1, false, fun _ => 0, 0⟩ :=
    Reach.step Reach.start (Step.put (by decide))
  have h2 : Reach cfgC3 ⟨[0, 1], none, fun _ => WStat.idle, DStat.enq 0 2, false, fun _ => 0, 0⟩ :=
    Reach.step h1 (Step.put (by decide))
  have h3 : Reach cfgC3 ⟨[0, 1], none, fun _ => WStat.idle, DStat.drain 0, false, fun _ => 0, 0⟩ :=
    Reach.step h2 Step.enqDone
  have h4 : Reach cfgC3 ⟨[1], some 0,
      Function.update (fun _ => WStat.idle) 0 (WStat.tookOne 0),
      DStat.drain 0, false, fun _ => 0, 0⟩ :=
    Reach.step h3 (Step.takeFirst (by decide) rfl)
  have h5 : Reach cfgC3 ⟨[], none,
      Function.update (Function.update (fun _ => WStat.idle) 0 (WStat.tookOne 0)) 0
        (WStat.playing 0 1),
      DStat.drain 0, false, fun _ => 0, 0⟩ :=
    Reach.step h4 (Step.takeSecond rfl)
  have h6 : Reach cfgC3 ⟨[], none,
      Function.update (Function.update (fun _ => WStat.idle) 0 (WStat.tookOne 0)) 0
        (WStat.playing 0 1),
      DStat.enq 1 0, false, fun _ => 0, 0⟩ :=
    Reach.step h5 (Step.drainNext (by decide) (by decide))
  exact Reach.step h6 (Step.put (by decide))

/-- C8: the claim fails on the code.  Schedule (population 2, one worker, one
sub-generation): the worker takes the pair and the match engine raises; the
exception kills the daemon worker thread and reaches nothing else.  The
driver's drain poll then reads 0, it sets the quit event, `join` returns
immediately on the dead thread, and `train` returns its population normally:
driver control state `returned` with 0 completed matches and 0 rating
updates, and no error surfaced to the caller (Layer A shows the same on the
driver side: the `return` inside `finally` maps every internal error to a
normal return). -/
theorem engine_failure_swallowed_bug :
    Reach cfgC8 stC8 ∧ stC8.d = DStat.returned ∧ stC8.played = 0
    ∧ stC8.upd 0 = 0 ∧ stC8.upd 1 = 0 ∧ stC8.w 0 = WStat.crashed :=
  by
  refine ⟨?_, rfl, rfl, rfl, rfl, rfl⟩
  have h1 : Reach cfgC8 ⟨[0], none, fun _ => WStat.idle, DStat.enq 0 1, false, fun _ => 0, 0⟩ :=
    Reach.step Reach.start (Step.put (by decide))
  have h2 : Reach cfgC8 ⟨[0, 1], none, fun _ => WStat.idle, DStat.enq 0 2, false, fun _ => 0, 0⟩ :=
    Reach.step h1 (Step.put (by decide))
  have h3 : Reach cfgC8 ⟨[0, 1], none, fun _ => WStat.idle, DStat.drain 0, false, fun _ => 0, 0⟩ :=
    Reach.step h2 Step.enqDone
  have h4 : Reach cfgC8 ⟨[1], some 0,
      Function.update (fun _ => WStat.idle) 0 (WStat.tookOne 0),
      DStat.drain 0, false, fun _ => 0, 0⟩ :=
    Reach.step h3 (Step.takeFirst (by decide) rfl)
  have h5 : Reach cfgC8 ⟨[], none,
      Function.update (Function.update (fun _ => WStat.idle) 0 (WStat.tookOne 0)) 0
        (WStat.playing 0 1),
      DStat.drain 0, false, fun _ => 0, 0⟩ :=
    Reach.step h4 (Step.takeSecond rfl)
  have h6 : Reach cfgC8 ⟨[], none,
      Function.update
        (Function.update (Function.update (fun _ => WStat.idle) 0 (WStat.tookOne 0)) 0
          (WStat.playing 0 1)) 0 WStat.crashed,
      DStat.drain 0, false, fun _ => 0, 0⟩ :=
    Reach.step h5 (Step.crash rfl)
  have h7 : Reach cfgC8 ⟨[], none,
      Function.update
        (Function.update (Function.update (fun _ => WStat.idle) 0 (WStat.tookOne 0)) 0
          (WStat.playing 0 1)) 0 WStat.crashed,
      DStat.quitting, false, fun _ => 0, 0⟩ :=
    Reach.step h6 (Step.drainLast (by decide) (by decide))
  have h8 : Reach cfgC8 ⟨[], none,
      Function.update
        (Function.update (Function.update (fun _ => WStat.idle) 0 (WStat.tookOne 0)) 0
          (WStat.playing 0 1)) 0 WStat.crashed,
      DStat.joining, true, fun _ => 0, 0⟩ :=
    Reach.step h7 Step.setQuit
  refine Reach.step h8 (Step.joinAll ?_)
  intro k hk
  have hk1 : k < 1 := hk
  have hk0 : k = 0 := by omega
  subst hk0
  exact Or.inr rfl
